import Mathlib

/-!
Shallow embedding of `src/app.py` (an "Instagram Bot Pro API" FastAPI
service).

State of the running service:
* `clients`  — the global `clients : Dict[str, Client]` cache (the spec's
  Client Pool);
* `accounts` — the global `accounts : Dict[str, dict]` metadata map (the
  spec's Account Registry);
* `sessions` — the contents of the `sessions/` directory (the spec's
  Session Store), one entry per file name;
* `backups`  — the contents of the `backups/` directory, one entry per
  file name.

Dictionaries and directories are modelled as insertion-ordered association
lists whose keys `kvSet` and `kvErase` keep unique.  The bytes of a session
file are opaque (`Blob := List Nat`).  Outcomes of network and file-system
calls that `app.py` does not itself control (the `get_timeline_feed`
liveness probe, whether reading a session file during backup succeeds,
whether an uploaded archive parses) enter as explicit parameters or data.
-/

deriving instance DecidableEq for Except

/-- Opaque file contents: a list of bytes. -/
abbrev Blob := List Nat

/-- One member of a zip archive: either its data reads back intact
(`good`), or reading the member fails (bad CRC or truncated data), in
which case CPython's `zipfile` raises while extracting that member. -/
inductive ZipEntry
  | good (b : Blob)
  | bad
  deriving DecidableEq

/-- A zip archive that opened successfully: its members in stored order. -/
abbrev Archive := List (String × ZipEntry)

/-- Contents of a `.zip` file on disk or uploaded: either `ZipFile(path)`
fails to open it (`zipfile.BadZipFile`), or it opens to a member list. -/
inductive ZipData
  | corrupt (raw : Blob)
  | ok (a : Archive)
  deriving DecidableEq

/-- The errors the modelled endpoints can raise: `http` is FastAPI's
`HTTPException(code, msg)`; `badZipFile` is an uncaught
`zipfile.BadZipFile`; `readFailure` is an uncaught `OSError` from reading
a session file. -/
inductive ApiError
  | http (code : Nat) (msg : String)
  | badZipFile
  | readFailure
  deriving DecidableEq

/-- An `instagrapi.Client` as configured by `app.py` (lines 59-66):
`delay_range`, user agent, optional proxy, and the session settings loaded
from the session file. -/
structure Client where
  delayRange : Nat × Nat
  userAgent : String
  proxy : Option String
  settings : Blob
  deriving DecidableEq

/-- The per-account metadata dict written by `add_account` (line 82). -/
structure AccountMeta where
  email : String
  proxy : Option String
  created : String
  deriving DecidableEq

/-- The mutable state of the service process and its two directories. -/
structure AppState where
  clients : List (String × Client)
  accounts : List (String × AccountMeta)
  sessions : List (String × Blob)
  backups : List (String × ZipData)
  deriving DecidableEq

/-- Dictionary / directory lookup. -/
def kvGet {α : Type} (k : String) : List (String × α) → Option α
  | [] => none
  | (k', v) :: rest => if k' = k then some v else kvGet k rest

/-- Dictionary write (`d[k] = v`) / file write: overwrite in place if the
key is present, else append. -/
def kvSet {α : Type} (k : String) (v : α) : List (String × α) → List (String × α)
  | [] => [(k, v)]
  | (k', v') :: rest => if k' = k then (k, v) :: rest else (k', v') :: kvSet k v rest

/-- Dictionary removal (`del d[k]` / `d.pop(k, None)`) or file removal. -/
def kvErase {α : Type} (k : String) : List (String × α) → List (String × α)
  | [] => []
  | (k', v) :: rest => if k' = k then kvErase k rest else (k', v) :: kvErase k rest

/-- The user agent string set in `get_client` (line 61). -/
def userAgentDefault : String :=
  "Mozilla/5.0 (Windows NT 10.0; Win64; x64) AppleWebKit/537.36"

/-- The session file name for an account:
`os.path.join(SESSIONS_DIR, f"{account_name}.json")` (line 55). -/
def jsonFile (name : String) : String := name ++ ".json"

/-- Fall-through tail of `get_client` (lines 55-68): no usable cached
handle, so require the session file, build and configure a fresh
`Client`, load the session into it, cache it and return it.  The proxy is
applied only when `account_name in accounts and accounts[account_name].get("proxy")`
is truthy (line 63), so a missing key, `None`, or an empty string all skip it. -/
def build_client (name : String) (s : AppState) : Except ApiError Client × AppState :=
  match kvGet (jsonFile name) s.sessions with
  | none => (Except.error (ApiError.http 404 ("Session " ++ name ++ ".json missing")), s)
  | some blob =>
      let proxy : Option String :=
        match kvGet name s.accounts with
        | some m =>
            match m.proxy with
            | some p => if p = "" then none else some p
            | none => none
        | none => none
      let cl : Client :=
        { delayRange := (2, 6), userAgent := userAgentDefault, proxy := proxy,
          settings := blob }
      (Except.ok cl, { s with clients := kvSet name cl s.clients })

/-- The fresh client `build_client` constructs and caches when the session
file holds `b` (lines 59-66), written out as a standalone value. -/
def builtClient (name : String) (s : AppState) (b : Blob) : Client :=
  { delayRange := (2, 6), userAgent := userAgentDefault,
    proxy :=
      match kvGet name s.accounts with
      | some m =>
          match m.proxy with
          | some p => if p = "" then none else some p
          | none => none
      | none => none,
    settings := b }

/-- `get_client` (lines 46-68).  `probeOk` is the outcome of the
`get_timeline_feed()` liveness probe on the cached handle, an external
network call: `true` means it returns, `false` means it raises (any
exception is caught by the bare `except:` on line 52, which then evicts
the handle and falls through to `build_client`). -/
def get_client (probeOk : Bool) (name : String) (s : AppState) :
    Except ApiError Client × AppState :=
  match kvGet name s.clients with
  | some cl =>
      if probeOk then (Except.ok cl, s)
      else build_client name { s with clients := kvErase name s.clients }
  | none => build_client name s

/-- Python's `s.split(sep)` on a character list: greedily cut at every
occurrence of the separator. -/
def pySplit (sep : Char) : List Char → List (List Char)
  | [] => [[]]
  | c :: rest =>
      if c = sep then [] :: pySplit sep rest
      else
        match pySplit sep rest with
        | [] => [[c]]
        | g :: gs => (c :: g) :: gs

/-- Python's `s.replace(a, b)` for a single-character pattern: a map over
the characters. -/
def pyMapReplace (a b : Char) (s : List Char) : List Char :=
  s.map fun c => if c = a then b else c

/-- The derived account name of `add_account` (line 73):
`req.email.split('@')[0].replace('+', '_').replace('.', '_')`. -/
def derive_account_name (email : String) : String :=
  String.mk (pyMapReplace '.' '_'
    (pyMapReplace '+' '_' ((pySplit '@' email.data).headD [])))

/-- The account name chosen by `add_account` (line 73):
`req.name or <derived>`.  Python's `or` falls through on any falsy value,
so both a missing `name` and an empty-string `name` derive from the email. -/
def add_account_name (reqName : Option String) (email : String) : String :=
  match reqName with
  | some n => if n = "" then derive_account_name email else n
  | none => derive_account_name email

/-- `delete_account` (lines 236-245): if the session file exists, remove
it, pop any cached client and any registry metadata, and answer success;
otherwise raise `HTTPException(404, "Account not found")` having touched
nothing. -/
def delete_account (account : String) (s : AppState) :
    Except ApiError String × AppState :=
  if (kvGet (jsonFile account) s.sessions).isSome then
    (Except.ok (account ++ " deleted"),
     { s with sessions := kvErase (jsonFile account) s.sessions,
              clients := kvErase account s.clients,
              accounts := kvErase account s.accounts })
  else
    (Except.error (ApiError.http 404 "Account not found"), s)

/-- The zip-writing loop of `create_backup` (lines 214-216):
`zf.write(path, session_file)` for every file in the sessions directory, in
listing order.  `readOk f` says whether reading file `f` from disk succeeds;
on the first failure the loop raises out of the `with` block, and the
`ZipFile` context manager's `close()` still finalises the entries written so
far, so the partial archive built up to that point remains on disk.
Returns (whether the loop completed, the archive contents written). -/
def zipWriteAll (readOk : String → Bool) : List (String × Blob) → Bool × Archive
  | [] => (true, [])
  | (f, b) :: rest =>
      if readOk f then
        ((zipWriteAll readOk rest).1, (f, ZipEntry.good b) :: (zipWriteAll readOk rest).2)
      else (false, [])

/-- The archive file name `f"backup_{timestamp}.zip"` (line 212). -/
def backupFileName (ts : String) : String := "backup_" ++ ts ++ ".zip"

/-- `create_backup` (lines 209-218).  `ts` is the formatted timestamp,
`readOk` the outcome of each session-file read.  The archive file is
created in the backup directory in-place while being written; on a read
failure the operation raises (`OSError`, an HTTP 500 to the caller) and
the truncated archive stays behind. -/
def create_backup (ts : String) (readOk : String → Bool) (s : AppState) :
    Except ApiError String × AppState :=
  let w := zipWriteAll readOk s.sessions
  let s1 := { s with backups := kvSet (backupFileName ts) (ZipData.ok w.2) s.backups }
  if w.1 then (Except.ok (backupFileName ts), s1)
  else (Except.error ApiError.readFailure, s1)

/-- `zf.extractall(SESSIONS_DIR)` (line 227).  CPython's `extractall`
extracts member by member in stored order; each good member overwrites or
creates its target file, and an unreadable member raises at that point,
leaving the members already extracted in place (the library gives no
all-or-nothing guarantee).  Returns (whether extraction completed, the
resulting sessions directory). -/
def extractAll : Archive → List (String × Blob) → Bool × List (String × Blob)
  | [], st => (true, st)
  | (f, ZipEntry.good b) :: rest, st => extractAll rest (kvSet f b st)
  | (_, ZipEntry.bad) :: _, st => (false, st)

/-- Python's `s.replace(pat, rep)` for a multi-character pattern, on
character lists: scan left to right, replacing each non-overlapping
occurrence and resuming after it.  The `fuel` argument only drives
structural recursion; `pyReplace` supplies the string length, which
suffices for any non-empty pattern. -/
def pyReplaceAux (pat rep : List Char) : Nat → List Char → List Char
  | _, [] => []
  | 0, c :: rest => c :: rest
  | fuel + 1, c :: rest =>
      if pat.isPrefixOf (c :: rest) then
        rep ++ pyReplaceAux pat rep fuel (List.drop pat.length (c :: rest))
      else c :: pyReplaceAux pat rep fuel rest

/-- Python's `s.replace(pat, rep)` on character lists. -/
def pyReplace (pat rep s : List Char) : List Char :=
  pyReplaceAux pat rep s.length s

/-- `f.endswith('.json')` (lines 92 and 232). -/
def endsWithJson (f : String) : Bool := List.isSuffixOf ".json".data f.data

/-- `f.replace('.json', '')` (lines 92 and 232): note Python removes every
occurrence of `.json`, not just a suffix. -/
def stripJson (f : String) : String := String.mk (pyReplace ".json".data [] f.data)

/-- The restored-accounts listing of `restore_backup` (line 232):
`[f.replace('.json', '') for f in os.listdir(SESSIONS_DIR) if f.endswith('.json')]`. -/
def listRestored (sessions : List (String × Blob)) : List String :=
  ((sessions.map Prod.fst).filter endsWithJson).map stripJson

/-- `restore_backup` (lines 220-233).  The uploaded file is first saved
into the backup directory under its client-supplied name (lines 222-224),
then opened as a zip: a corrupt file raises `BadZipFile` there, before any
extraction.  Otherwise `extractall` runs member by member; only when it
completes are the cached clients cleared and the restored account names
listed.  If extraction raises midway, neither the clearing nor the listing
happens, but the members already extracted stay in the Session Store. -/
def restore_backup (fname : String) (content : ZipData) (s : AppState) :
    Except ApiError (List String) × AppState :=
  let s1 := { s with backups := kvSet fname content s.backups }
  match content with
  | ZipData.corrupt _ => (Except.error ApiError.badZipFile, s1)
  | ZipData.ok a =>
      let e := extractAll a s1.sessions
      if e.1 then
        let s2 := { s1 with sessions := e.2, clients := [] }
        (Except.ok (listRestored s2.sessions), s2)
      else
        (Except.error ApiError.badZipFile, { s1 with sessions := e.2 })

/-- An archive every member of which reads back intact, as produced by a
successful `create_backup` run over the given directory contents. -/
def goodArchive (entries : List (String × Blob)) : Archive :=
  entries.map fun p => (p.1, ZipEntry.good p.2)

/-- Folding a list of extracted files into a directory, first member
first: the net effect of a completed `extractall`. -/
def extractFold (entries st : List (String × Blob)) : List (String × Blob) :=
  entries.foldl (fun acc p => kvSet p.1 p.2 acc) st

/-! ### Association-list lemmas -/

theorem kvGet_kvSet_self {α : Type} (k : String) (v : α) (m : List (String × α)) :
    kvGet k (kvSet k v m) = some v := by
  induction m with
  | nil => simp [kvGet, kvSet]
  | cons p rest ih =>
      obtain ⟨k', v'⟩ := p
      by_cases h : k' = k
      · simp [kvGet, kvSet, h]
      · simp [kvGet, kvSet, h, ih]

theorem kvGet_kvSet_of_ne {α : Type} {j k : String} (h : j ≠ k) (v : α)
    (m : List (String × α)) : kvGet j (kvSet k v m) = kvGet j m := by
  have hkj : ¬ (k = j) := fun he => h he.symm
  induction m with
  | nil => simp [kvGet, kvSet, hkj]
  | cons p rest ih =>
      obtain ⟨k', v'⟩ := p
      by_cases hk : k' = k
      · subst hk
        simp [kvGet, kvSet, hkj]
      · by_cases hj : k' = j
        · simp [kvGet, kvSet, hk, hj, h]
        · simp [kvGet, kvSet, hk, hj, ih]

theorem kvGet_kvErase_self {α : Type} (k : String) (m : List (String × α)) :
    kvGet k (kvErase k m) = none := by
  induction m with
  | nil => simp [kvGet, kvErase]
  | cons p rest ih =>
      obtain ⟨k', v'⟩ := p
      by_cases h : k' = k
      · simp [kvErase, h, ih]
      · simp [kvGet, kvErase, h, ih]

theorem kvGet_kvErase_of_ne {α : Type} {j k : String} (h : j ≠ k)
    (m : List (String × α)) : kvGet j (kvErase k m) = kvGet j m := by
  have hkj : ¬ (k = j) := fun he => h he.symm
  induction m with
  | nil => simp [kvGet, kvErase]
  | cons p rest ih =>
      obtain ⟨k', v'⟩ := p
      by_cases hk : k' = k
      · subst hk
        simp [kvGet, kvErase, hkj, ih]
      · by_cases hj : k' = j
        · simp [kvGet, kvErase, hk, hj, h]
        · simp [kvGet, kvErase, hk, hj, ih]

theorem kvSet_of_not_mem {α : Type} {k : String} {m : List (String × α)}
    (h : k ∉ m.map Prod.fst) (v : α) : kvSet k v m = m ++ [(k, v)] := by
  induction m with
  | nil => simp [kvSet]
  | cons p rest ih =>
      obtain ⟨k', v'⟩ := p
      simp only [List.map_cons, List.mem_cons] at h
      push_neg at h
      have h1 : ¬ (k' = k) := fun he => h.1 he.symm
      simp [kvSet, h1, ih h.2]

/-! ### Extraction and archive-writing lemmas -/

theorem extractFold_cons (f : String) (b : Blob) (rest st : List (String × Blob)) :
    extractFold ((f, b) :: rest) st = extractFold rest (kvSet f b st) := rfl

theorem extractAll_goodArchive (entries st : List (String × Blob)) :
    extractAll (goodArchive entries) st = (true, extractFold entries st) := by
  induction entries generalizing st with
  | nil => simp [goodArchive, extractAll, extractFold]
  | cons p rest ih =>
      obtain ⟨f, b⟩ := p
      rw [extractFold_cons]
      exact ih (kvSet f b st)

theorem extractAll_stops_at_bad (pre : List (String × Blob)) (g : String) (post : Archive)
    (st : List (String × Blob)) :
    extractAll (goodArchive pre ++ (g, ZipEntry.bad) :: post) st
      = (false, extractFold pre st) := by
  induction pre generalizing st with
  | nil => simp [goodArchive, extractAll, extractFold]
  | cons p rest ih =>
      obtain ⟨f, b⟩ := p
      rw [extractFold_cons]
      exact ih (kvSet f b st)

theorem kvGet_extractFold_of_not_mem {f : String} {entries : List (String × Blob)}
    (h : f ∉ entries.map Prod.fst) (st : List (String × Blob)) :
    kvGet f (extractFold entries st) = kvGet f st := by
  induction entries generalizing st with
  | nil => rfl
  | cons p rest ih =>
      obtain ⟨g, b⟩ := p
      simp only [List.map_cons, List.mem_cons] at h
      push_neg at h
      rw [extractFold_cons, ih h.2, kvGet_kvSet_of_ne h.1]

theorem kvGet_extractFold_of_mem {f : String} {b : Blob} {entries : List (String × Blob)}
    (hnd : (entries.map Prod.fst).Nodup) (h : (f, b) ∈ entries)
    (st : List (String × Blob)) : kvGet f (extractFold entries st) = some b := by
  induction entries generalizing st with
  | nil => cases h
  | cons p rest ih =>
      obtain ⟨g, c⟩ := p
      simp only [List.map_cons, List.nodup_cons] at hnd
      rcases List.mem_cons.mp h with he | hm
      · cases he
        rw [extractFold_cons, kvGet_extractFold_of_not_mem hnd.1, kvGet_kvSet_self]
      · rw [extractFold_cons]
        exact ih hnd.2 hm (kvSet g c st)

theorem extractFold_of_disjoint {entries st : List (String × Blob)}
    (hnd : (entries.map Prod.fst).Nodup)
    (hd : ∀ f ∈ entries.map Prod.fst, f ∉ st.map Prod.fst) :
    extractFold entries st = st ++ entries := by
  induction entries generalizing st with
  | nil => simp [extractFold]
  | cons p rest ih =>
      obtain ⟨f, b⟩ := p
      simp only [List.map_cons, List.nodup_cons] at hnd
      rw [extractFold_cons, kvSet_of_not_mem (hd f (by simp)) b]
      rw [ih hnd.2]
      · simp
      · intro g hg
        simp only [List.map_append, List.mem_append, List.map_cons]
        push_neg
        refine ⟨hd g (by simp [hg]), ?_⟩
        simp only [List.map_nil, List.mem_singleton]
        intro he
        exact hnd.1 (he ▸ hg)

theorem zipWriteAll_all_true (l : List (String × Blob)) :
    zipWriteAll (fun _ => true) l = (true, goodArchive l) := by
  induction l with
  | nil => simp [zipWriteAll, goodArchive]
  | cons p rest ih =>
      obtain ⟨f, b⟩ := p
      simp [zipWriteAll, goodArchive, ih]

theorem zipWriteAll_failure {readOk : String → Bool} {l : List (String × Blob)}
    (h : ∃ p ∈ l, readOk p.1 = false) :
    zipWriteAll readOk l
      = (false, goodArchive (l.takeWhile (fun p => readOk p.1))) := by
  induction l with
  | nil => simp at h
  | cons p rest ih =>
      obtain ⟨f, b⟩ := p
      by_cases hf : readOk f = true
      · have hrest : ∃ p ∈ rest, readOk p.1 = false := by
          rcases h with ⟨q, hq, hqf⟩
          rcases List.mem_cons.mp hq with rfl | hm
          · exact absurd hf (by simp [hqf])
          · exact ⟨q, hm, hqf⟩
        simp [zipWriteAll, hf, ih hrest, List.takeWhile_cons, goodArchive]
      · simp only [Bool.not_eq_true] at hf
        simp [zipWriteAll, hf, List.takeWhile_cons, goodArchive]

/-! ### Python string-operation lemmas -/

theorem pySplit_ne_nil (sep : Char) (s : List Char) : pySplit sep s ≠ [] := by
  cases s with
  | nil => simp [pySplit]
  | cons c rest =>
      by_cases h : c = sep
      · simp [pySplit, h]
      · simp only [pySplit, if_neg h]
        cases pySplit sep rest <;> simp

theorem pySplit_headD (sep : Char) (s : List Char) :
    (pySplit sep s).headD [] = s.takeWhile (fun c => c ≠ sep) := by
  induction s with
  | nil => rfl
  | cons c rest ih =>
      by_cases h : c = sep
      · simp [pySplit, h, List.takeWhile_cons]
      · simp only [pySplit, if_neg h]
        cases hps : pySplit sep rest with
        | nil => exact absurd hps (pySplit_ne_nil sep rest)
        | cons g gs =>
            rw [hps] at ih
            simp only [List.headD_cons] at ih
            simp only [decide_not] at ih
            simp [List.takeWhile_cons, h, ih]

/-- A pattern has no nontrivial border: no proper non-empty prefix of it is
also a suffix of it.  Occurrences of such a pattern can never overlap. -/
abbrev noBorder (pat : List Char) : Prop :=
  ∀ k, k < pat.length → 0 < k → List.take k pat ≠ List.drop (pat.length - k) pat

theorem pyReplaceAux_append_pat (pat : List Char) (hne : pat ≠ []) (hnb : noBorder pat) :
    ∀ (fuel : Nat) (n : List Char), n.length + pat.length ≤ fuel →
      ¬ pat <:+: n → pyReplaceAux pat [] fuel (n ++ pat) = n := by
  intro fuel
  induction fuel with
  | zero =>
      intro n h hni
      have hp : 0 < pat.length := List.length_pos.mpr hne
      omega
  | succ fuel ih =>
      intro n h hni
      cases n with
      | nil =>
          simp only [List.nil_append]
          obtain ⟨p, ps, rfl⟩ : ∃ p ps, pat = p :: ps := by
            cases pat with
            | nil => exact absurd rfl hne
            | cons p ps => exact ⟨p, ps, rfl⟩
          have hpre : (p :: ps).isPrefixOf (p :: ps) = true :=
            List.isPrefixOf_iff_prefix.mpr (List.prefix_refl _)
          simp [pyReplaceAux, hpre, List.drop_length]
      | cons c n' =>
          simp only [List.cons_append]
          cases hb : pat.isPrefixOf (c :: (n' ++ pat)) with
          | true =>
              exfalso
              have hpre : pat <+: (c :: n') ++ pat := by
                rw [List.cons_append]
                exact List.isPrefixOf_iff_prefix.mp hb
              have hm : 0 < (c :: n').length := by simp
              rcases Nat.lt_or_ge (c :: n').length pat.length with hlen | hlen
              · -- an overlapping occurrence would give `pat` a border
                have heq : pat = ((c :: n') ++ pat).take pat.length :=
                  List.prefix_iff_eq_take.mp hpre
                rw [List.take_append_eq_append_take,
                  List.take_of_length_le (Nat.le_of_lt hlen)] at heq
                have hk1 : 0 < pat.length - (c :: n').length := by omega
                have hk2 : pat.length - (c :: n').length < pat.length := by omega
                have hdrop :
                    pat.drop (pat.length - (pat.length - (c :: n').length))
                      = pat.take (pat.length - (c :: n').length) := by
                  have hlc : pat.length - (pat.length - (c :: n').length)
                      = (c :: n').length := by omega
                  rw [hlc]
                  conv_lhs => rw [heq]
                  rw [List.drop_left]
                exact hnb _ hk2 hk1 hdrop.symm
              · -- the occurrence would lie inside `n`, contradicting no-infix
                have heq : pat = ((c :: n') ++ pat).take pat.length :=
                  List.prefix_iff_eq_take.mp hpre
                rw [List.take_append_of_le_length hlen] at heq
                have hp2 : pat <+: (c :: n') := by
                  rw [heq]
                  exact List.take_prefix _ _
                exact hni hp2.isInfix
          | false =>
              have hh : n'.length + pat.length ≤ fuel := by
                simp only [List.length_cons] at h
                omega
              have hni2 : ¬ pat <:+: n' := fun hin => hni (List.infix_cons hin)
              simp [pyReplaceAux, hb, ih n' hh hni2]

theorem pyReplace_append_pat (pat n : List Char) (hne : pat ≠ []) (hnb : noBorder pat)
    (hni : ¬ pat <:+: n) : pyReplace pat [] (n ++ pat) = n := by
  unfold pyReplace
  exact pyReplaceAux_append_pat pat hne hnb (n ++ pat).length n (by simp) hni

theorem stripJson_jsonFile (n : String) (hni : ¬ (".json".data <:+: n.data)) :
    stripJson (jsonFile n) = n := by
  unfold stripJson jsonFile
  rw [String.data_append,
    pyReplace_append_pat ".json".data n.data (by decide) (by decide) hni]

theorem endsWithJson_jsonFile (n : String) : endsWithJson (jsonFile n) = true := by
  unfold endsWithJson jsonFile
  rw [String.data_append]
  simp

theorem jsonFile_injective : Function.Injective jsonFile := by
  intro a b hab
  unfold jsonFile at hab
  have hd : a.data ++ ".json".data = b.data ++ ".json".data := by
    have h2 := congrArg String.data hab
    rwa [String.data_append, String.data_append] at h2
  have h3 : a.data = b.data := List.append_inj_left' hd rfl
  exact congrArg String.mk h3

/-! ### Evaluation lemmas for `restore_backup` and `create_backup` -/

theorem extractAll_fst_of_good (a : Archive) (st : List (String × Blob))
    (h : ∀ p ∈ a, p.2 ≠ ZipEntry.bad) : (extractAll a st).1 = true := by
  induction a generalizing st with
  | nil => rfl
  | cons p rest ih =>
      obtain ⟨f, e⟩ := p
      cases e with
      | good b =>
          exact ih (kvSet f b st) (fun q hq => h q (List.mem_cons_of_mem _ hq))
      | bad => exact absurd rfl (h (f, ZipEntry.bad) (List.mem_cons_self _ _))

theorem restore_backup_corrupt (fname : String) (raw : Blob) (s : AppState) :
    restore_backup fname (ZipData.corrupt raw) s
      = (Except.error ApiError.badZipFile,
         { s with backups := kvSet fname (ZipData.corrupt raw) s.backups }) := rfl

theorem restore_backup_good (fname : String) (entries : List (String × Blob))
    (s : AppState) :
    restore_backup fname (ZipData.ok (goodArchive entries)) s
      = (Except.ok (listRestored (extractFold entries s.sessions)),
         { s with backups := kvSet fname (ZipData.ok (goodArchive entries)) s.backups,
                  sessions := extractFold entries s.sessions,
                  clients := [] }) := by
  unfold restore_backup
  simp only [extractAll_goodArchive]
  simp

theorem restore_backup_bad_member (fname : String) (pre : List (String × Blob))
    (g : String) (post : Archive) (s : AppState) :
    restore_backup fname (ZipData.ok (goodArchive pre ++ (g, ZipEntry.bad) :: post)) s
      = (Except.error ApiError.badZipFile,
         { s with
             backups := kvSet fname
               (ZipData.ok (goodArchive pre ++ (g, ZipEntry.bad) :: post)) s.backups,
             sessions := extractFold pre s.sessions }) := by
  unfold restore_backup
  simp only [extractAll_stops_at_bad]
  rfl

theorem create_backup_all_reads_ok (ts : String) (s : AppState) :
    create_backup ts (fun _ => true) s
      = (Except.ok (backupFileName ts),
         { s with backups :=
             kvSet (backupFileName ts) (ZipData.ok (goodArchive s.sessions)) s.backups }) := by
  unfold create_backup
  simp only [zipWriteAll_all_true]
  simp

/-! ### Claim theorems -/

/-- C9: when no explicit name is supplied, `add_account` derives the
account name as the email's local part (the characters before the first
`@`) with every `+` and every `.` replaced by `_`; in particular the email
`alice@x.com` yields the name `alice`. -/
theorem add_account_derived_name :
    (∀ email : String,
      add_account_name none email
        = String.mk ((email.data.takeWhile (fun c => c ≠ '@')).map
            (fun c => if c = '+' ∨ c = '.' then '_' else c))) ∧
    add_account_name none "alice@x.com" = "alice" := by
  constructor
  · intro email
    show derive_account_name email = _
    unfold derive_account_name
    rw [pySplit_headD]
    unfold pyMapReplace
    rw [List.map_map]
    congr 1
    apply List.map_congr_left
    intro c hc
    by_cases h1 : c = '+'
    · simp [h1]
    · by_cases h2 : c = '.'
      · simp [h1, h2]
      · simp [h1, h2]
  · decide

/-- C7: `delete_account` on a name whose session file is absent fails with
`HTTPException(404, "Account not found")` and leaves the whole state — the
Session Store, Account Registry and Client Pool entries of every account —
unchanged; when the session file exists, it removes that file, evicts any
cached client handle for the name, and removes the registry metadata. -/
theorem delete_account_contract (name : String) (s : AppState) :
    (kvGet (jsonFile name) s.sessions = none →
      delete_account name s
        = (Except.error (ApiError.http 404 "Account not found"), s)) ∧
    (∀ b, kvGet (jsonFile name) s.sessions = some b →
      delete_account name s
        = (Except.ok (name ++ " deleted"),
           { s with sessions := kvErase (jsonFile name) s.sessions,
                    clients := kvErase name s.clients,
                    accounts := kvErase name s.accounts })) := by
  constructor
  · intro h
    unfold delete_account
    rw [h]
    rfl
  · intro b h
    unfold delete_account
    rw [h]
    rfl

theorem delete_account_contract_witness :
    delete_account "ghost" ⟨[], [], [("alice.json", [1])], []⟩
        = (Except.error (ApiError.http 404 "Account not found"),
           ⟨[], [], [("alice.json", [1])], []⟩) ∧
    delete_account "alice"
        ⟨[("alice", ⟨(2, 6), userAgentDefault, none, [9]⟩)],
         [("alice", ⟨"a@x.com", none, "t0"⟩)], [("alice.json", [1])], []⟩
      = (Except.ok "alice deleted", ⟨[], [], [], []⟩) :=
  ⟨(delete_account_contract "ghost" ⟨[], [], [("alice.json", [1])], []⟩).1 (by decide),
   (delete_account_contract "alice"
      ⟨[("alice", ⟨(2, 6), userAgentDefault, none, [9]⟩)],
       [("alice", ⟨"a@x.com", none, "t0"⟩)], [("alice.json", [1])], []⟩).2 [1] (by decide)⟩

/-- C10: when a client handle for `n` is cached but no session file for
`n` exists, `delete_account n` fails with NotFound, performs no eviction,
and the stale cached handle for `n` itself is still in the pool afterwards. -/
theorem delete_account_keeps_stale_handle (name : String) (s : AppState) (cl : Client)
    (hc : kvGet name s.clients = some cl)
    (hb : kvGet (jsonFile name) s.sessions = none) :
    delete_account name s
        = (Except.error (ApiError.http 404 "Account not found"), s) ∧
    kvGet name (delete_account name s).2.clients = some cl := by
  have he : delete_account name s
      = (Except.error (ApiError.http 404 "Account not found"), s) := by
    unfold delete_account
    rw [hb]
    rfl
  exact ⟨he, by rw [he]; exact hc⟩

theorem delete_account_keeps_stale_handle_witness :
    kvGet "a" [("a", (⟨(2, 6), userAgentDefault, none, [9]⟩ : Client))] = some ⟨(2, 6), userAgentDefault, none, [9]⟩ ∧
    delete_account "a"
        ⟨[("a", ⟨(2, 6), userAgentDefault, none, [9]⟩)], [], [], []⟩
      = (Except.error (ApiError.http 404 "Account not found"),
         ⟨[("a", ⟨(2, 6), userAgentDefault, none, [9]⟩)], [], [], []⟩) ∧
    kvGet "a" (delete_account "a"
        ⟨[("a", ⟨(2, 6), userAgentDefault, none, [9]⟩)], [], [], []⟩).2.clients
      = some ⟨(2, 6), userAgentDefault, none, [9]⟩ :=
  ⟨by decide,
   (delete_account_keeps_stale_handle "a"
      ⟨[("a", ⟨(2, 6), userAgentDefault, none, [9]⟩)], [], [], []⟩
      ⟨(2, 6), userAgentDefault, none, [9]⟩ (by decide) (by decide)).1,
   (delete_account_keeps_stale_handle "a"
      ⟨[("a", ⟨(2, 6), userAgentDefault, none, [9]⟩)], [], [], []⟩
      ⟨(2, 6), userAgentDefault, none, [9]⟩ (by decide) (by decide)).2⟩

theorem build_client_missing (name : String) (s : AppState)
    (hb : kvGet (jsonFile name) s.sessions = none) :
    build_client name s
      = (Except.error (ApiError.http 404 ("Session " ++ name ++ ".json missing")), s) := by
  unfold build_client
  rw [hb]

theorem build_client_found (name : String) (s : AppState) (b : Blob)
    (hb : kvGet (jsonFile name) s.sessions = some b) :
    build_client name s
      = (Except.ok (builtClient name s b),
         { s with clients := kvSet name (builtClient name s b) s.clients }) := by
  unfold build_client
  rw [hb]
  rfl

/-- C4: acquiring a client for a name with no usable cached handle
requires the session file: if the file is absent, `get_client` fails with
`HTTPException(404, "Session {name}.json missing")` and leaves no cached
handle for the name (in the just-evicted case the cache entry stays gone),
and if the file holds blob `b`, it constructs a fresh handle, loads `b`
into it as its settings, caches it under the name, and returns it. -/
theorem get_client_requires_session (probeOk : Bool) (name : String) (s : AppState) :
    (kvGet name s.clients = none → kvGet (jsonFile name) s.sessions = none →
      get_client probeOk name s
        = (Except.error (ApiError.http 404 ("Session " ++ name ++ ".json missing")), s)) ∧
    (∀ cl, kvGet name s.clients = some cl → kvGet (jsonFile name) s.sessions = none →
      get_client false name s
        = (Except.error (ApiError.http 404 ("Session " ++ name ++ ".json missing")),
           { s with clients := kvErase name s.clients }) ∧
      kvGet name (kvErase name s.clients) = none) ∧
    (∀ b, kvGet name s.clients = none → kvGet (jsonFile name) s.sessions = some b →
      get_client probeOk name s
        = (Except.ok (builtClient name s b),
           { s with clients := kvSet name (builtClient name s b) s.clients })
      ∧ (builtClient name s b).settings = b
      ∧ kvGet name (kvSet name (builtClient name s b) s.clients)
          = some (builtClient name s b)) := by
  refine ⟨?_, ?_, ?_⟩
  · intro hc hb
    unfold get_client
    rw [hc]
    exact build_client_missing name s hb
  · intro cl hc hb
    refine ⟨?_, kvGet_kvErase_self name s.clients⟩
    unfold get_client
    rw [hc]
    show build_client name { s with clients := kvErase name s.clients } = _
    exact build_client_missing name { s with clients := kvErase name s.clients } hb
  · intro b hc hb
    refine ⟨?_, rfl, kvGet_kvSet_self name (builtClient name s b) s.clients⟩
    unfold get_client
    rw [hc]
    exact build_client_found name s b hb

theorem get_client_requires_session_witness :
    get_client true "a" ⟨[], [], [], []⟩
      = (Except.error (ApiError.http 404 ("Session " ++ "a" ++ ".json missing")),
         ⟨[], [], [], []⟩) ∧
    (get_client true "b" ⟨[], [], [("b.json", [3])], []⟩
        = (Except.ok (builtClient "b" ⟨[], [], [("b.json", [3])], []⟩ [3]),
           ⟨[("b", builtClient "b" ⟨[], [], [("b.json", [3])], []⟩ [3])], [],
            [("b.json", [3])], []⟩)
      ∧ (builtClient "b" ⟨[], [], [("b.json", [3])], []⟩ [3]).settings = [3]) :=
  ⟨(get_client_requires_session true "a" ⟨[], [], [], []⟩).1 (by decide) (by decide),
   ((get_client_requires_session true "b" ⟨[], [], [("b.json", [3])], []⟩).2.2 [3]
      (by decide) (by decide)).1,
   ((get_client_requires_session true "b" ⟨[], [], [("b.json", [3])], []⟩).2.2 [3]
      (by decide) (by decide)).2.1⟩

/-- C5: when the cached handle for `name` fails its liveness probe (any
failure kind — the bare `except:` catches them all), the same
`get_client` call evicts that handle and, the session file still holding
blob `b`, rebuilds and returns a fresh handle loaded from `b` instead of
failing. -/
theorem get_client_rebuild_on_probe_failure (name : String) (s : AppState)
    (cl : Client) (b : Blob) (hc : kvGet name s.clients = some cl)
    (hb : kvGet (jsonFile name) s.sessions = some b) :
    ∃ cl2, get_client false name s
        = (Except.ok cl2,
           { s with clients := kvSet name cl2 (kvErase name s.clients) })
      ∧ cl2.settings = b := by
  refine ⟨builtClient name { s with clients := kvErase name s.clients } b, ?_, rfl⟩
  unfold get_client
  rw [hc]
  show build_client name { s with clients := kvErase name s.clients } = _
  exact build_client_found name { s with clients := kvErase name s.clients } b hb

theorem get_client_rebuild_on_probe_failure_witness :
    kvGet "a" (⟨[("a", ⟨(9, 9), "ua", none, [1]⟩)], [], [("a.json", [3])], []⟩ : AppState).clients
      = some ⟨(9, 9), "ua", none, [1]⟩ ∧
    kvGet (jsonFile "a")
        (⟨[("a", ⟨(9, 9), "ua", none, [1]⟩)], [], [("a.json", [3])], []⟩ : AppState).sessions
      = some [3] ∧
    (∃ cl2, get_client false "a"
        ⟨[("a", ⟨(9, 9), "ua", none, [1]⟩)], [], [("a.json", [3])], []⟩
        = (Except.ok cl2,
           { (⟨[("a", ⟨(9, 9), "ua", none, [1]⟩)], [], [("a.json", [3])], []⟩ : AppState) with
               clients := kvSet "a" cl2
                 (kvErase "a" [("a", ⟨(9, 9), "ua", none, [1]⟩)]) })
      ∧ cl2.settings = [3]) :=
  ⟨by decide, by decide,
   get_client_rebuild_on_probe_failure "a"
     ⟨[("a", ⟨(9, 9), "ua", none, [1]⟩)], [], [("a.json", [3])], []⟩
     ⟨(9, 9), "ua", none, [1]⟩ [3] (by decide) (by decide)⟩

theorem restore_backup_ok_eval (fname : String) (a : Archive) (s : AppState)
    (ht : (extractAll a s.sessions).1 = true) :
    restore_backup fname (ZipData.ok a) s
      = (Except.ok (listRestored (extractAll a s.sessions).2),
         { s with backups := kvSet fname (ZipData.ok a) s.backups,
                  sessions := (extractAll a s.sessions).2,
                  clients := [] }) := by
  unfold restore_backup
  simp only [ht, if_true]

/-- C6: a restore whose extraction completes invalidates the whole Client
Pool: afterwards the `clients` cache is empty (every previously cached
handle, for every account name, is gone), so subsequent acquires rebuild
lazily from the replaced Session Store. -/
theorem restore_clears_pool (fname : String) (a : Archive) (s : AppState)
    (h : ∀ p ∈ a, p.2 ≠ ZipEntry.bad) :
    (∃ ns, (restore_backup fname (ZipData.ok a) s).1 = Except.ok ns) ∧
    (restore_backup fname (ZipData.ok a) s).2.clients = [] := by
  rw [restore_backup_ok_eval fname a s (extractAll_fst_of_good a s.sessions h)]
  exact ⟨⟨_, rfl⟩, rfl⟩

theorem restore_clears_pool_witness :
    (∀ p ∈ ([("x.json", ZipEntry.good [5])] : Archive), p.2 ≠ ZipEntry.bad) ∧
    (∃ ns, (restore_backup "u.zip" (ZipData.ok [("x.json", ZipEntry.good [5])])
        ⟨[("old", ⟨(9, 9), "ua", none, [1]⟩)], [], [], []⟩).1 = Except.ok ns) ∧
    (restore_backup "u.zip" (ZipData.ok [("x.json", ZipEntry.good [5])])
        ⟨[("old", ⟨(9, 9), "ua", none, [1]⟩)], [], [], []⟩).2.clients = [] :=
  ⟨by decide,
   (restore_clears_pool "u.zip" [("x.json", ZipEntry.good [5])]
      ⟨[("old", ⟨(9, 9), "ua", none, [1]⟩)], [], [], []⟩ (by decide)).1,
   (restore_clears_pool "u.zip" [("x.json", ZipEntry.good [5])]
      ⟨[("old", ⟨(9, 9), "ua", none, [1]⟩)], [], [], []⟩ (by decide)).2⟩

/-- C3: restoring a valid archive that (partially) overlaps the current
Session Store is additive-overwrite: the restore succeeds; every existing
blob whose file name is absent from the archive is left byte-identical;
every archive member's name afterwards maps to the archive's copy
(overwriting overlapping names, adding new ones); and no blob is deleted. -/
theorem restore_additive_overwrite (fname : String) (entries : List (String × Blob))
    (s : AppState) (hnd : (entries.map Prod.fst).Nodup) :
    (∃ ns, (restore_backup fname (ZipData.ok (goodArchive entries)) s).1
        = Except.ok ns) ∧
    (∀ f, f ∉ entries.map Prod.fst →
      kvGet f (restore_backup fname (ZipData.ok (goodArchive entries)) s).2.sessions
        = kvGet f s.sessions) ∧
    (∀ f b, (f, b) ∈ entries →
      kvGet f (restore_backup fname (ZipData.ok (goodArchive entries)) s).2.sessions
        = some b) ∧
    (∀ f b, kvGet f s.sessions = some b →
      ∃ b2, kvGet f (restore_backup fname (ZipData.ok (goodArchive entries)) s).2.sessions
          = some b2) := by
  simp only [restore_backup_good]
  refine ⟨⟨_, rfl⟩, ?_, ?_, ?_⟩
  · intro f hf
    exact kvGet_extractFold_of_not_mem hf s.sessions
  · intro f b hm
    exact kvGet_extractFold_of_mem hnd hm s.sessions
  · intro f b hget
    by_cases hf : f ∈ entries.map Prod.fst
    · rcases List.mem_map.mp hf with ⟨p, hp, rfl⟩
      exact ⟨p.2, kvGet_extractFold_of_mem hnd (by simpa using hp) s.sessions⟩
    · refine ⟨b, ?_⟩
      rw [kvGet_extractFold_of_not_mem hf s.sessions]
      exact hget

theorem restore_additive_overwrite_witness :
    (([("a.json", [9])] : List (String × Blob)).map Prod.fst).Nodup ∧
    kvGet "b.json" (restore_backup "u.zip" (ZipData.ok (goodArchive [("a.json", [9])]))
        ⟨[], [], [("b.json", [1])], []⟩).2.sessions
      = kvGet "b.json" (⟨[], [], [("b.json", [1])], []⟩ : AppState).sessions ∧
    kvGet "a.json" (restore_backup "u.zip" (ZipData.ok (goodArchive [("a.json", [9])]))
        ⟨[], [], [("b.json", [1])], []⟩).2.sessions = some [9] :=
  ⟨by decide,
   (restore_additive_overwrite "u.zip" [("a.json", [9])]
      ⟨[], [], [("b.json", [1])], []⟩ (by decide)).2.1 "b.json" (by decide),
   (restore_additive_overwrite "u.zip" [("a.json", [9])]
      ⟨[], [], [("b.json", [1])], []⟩ (by decide)).2.2.1 "a.json" [9] (by decide)⟩

/-- C2 is false as stated: extraction is not all-or-nothing.  At this
concrete input the archive opens (so it reaches `extractall`), its first
member is readable and its second is not; the restore fails, yet exactly
one of the two members has been written into the Session Store — neither
all blobs nor none. -/
theorem restore_partial_extraction_cex :
    (restore_backup "u.zip"
        (ZipData.ok [("a.json", ZipEntry.good [1]), ("b.json", ZipEntry.bad)])
        ⟨[], [], [], []⟩).1 = Except.error ApiError.badZipFile ∧
    (restore_backup "u.zip"
        (ZipData.ok [("a.json", ZipEntry.good [1]), ("b.json", ZipEntry.bad)])
        ⟨[], [], [], []⟩).2.sessions = [("a.json", [1])] ∧
    ([("a.json", [1])] : List (String × Blob)) ≠ [] ∧
    ([("a.json", [1])] : List (String × Blob)) ≠ [("a.json", [1]), ("b.json", [2])] := by
  decide

/-- C2 (amended): an upload that fails to open as a zip archive makes the
restore fail before any Session Store mutation (every existing blob is
left unchanged, and the pool is untouched); extraction of an archive that
does open, however, is member-by-member rather than all-or-nothing: on an
unreadable member the restore fails having written exactly the members
preceding the bad one, and the pool is again untouched. -/
theorem restore_corrupt_and_partial_behaviour (fname : String) (raw : Blob)
    (pre : List (String × Blob)) (g : String) (post : Archive) (s : AppState) :
    ((restore_backup fname (ZipData.corrupt raw) s).1
        = Except.error ApiError.badZipFile ∧
     (restore_backup fname (ZipData.corrupt raw) s).2.sessions = s.sessions ∧
     (restore_backup fname (ZipData.corrupt raw) s).2.clients = s.clients) ∧
    ((restore_backup fname (ZipData.ok (goodArchive pre ++ (g, ZipEntry.bad) :: post)) s).1
        = Except.error ApiError.badZipFile ∧
     (restore_backup fname
        (ZipData.ok (goodArchive pre ++ (g, ZipEntry.bad) :: post)) s).2.sessions
        = extractFold pre s.sessions ∧
     (restore_backup fname
        (ZipData.ok (goodArchive pre ++ (g, ZipEntry.bad) :: post)) s).2.clients
        = s.clients) := by
  rw [restore_backup_corrupt, restore_backup_bad_member]
  exact ⟨⟨rfl, rfl, rfl⟩, rfl, rfl, rfl⟩

/-- C8 is false as stated: at this concrete input reading the second of
two session files fails, `create_backup` fails as a whole, and yet a
truncated archive — containing only the first blob, not both — has been
emitted into the backup area. -/
theorem create_backup_truncated_cex :
    (create_backup "T" (fun f => f != "b.json")
        ⟨[], [], [("a.json", [1]), ("b.json", [2])], []⟩).1
      = Except.error ApiError.readFailure ∧
    kvGet (backupFileName "T")
        (create_backup "T" (fun f => f != "b.json")
          ⟨[], [], [("a.json", [1]), ("b.json", [2])], []⟩).2.backups
      = some (ZipData.ok [("a.json", ZipEntry.good [1])]) ∧
    ([("a.json", ZipEntry.good [1])] : Archive)
      ≠ goodArchive [("a.json", [1]), ("b.json", [2])] := by
  decide

/-- C8 (amended): if reading some session file fails mid-backup, the whole
`create_backup` operation fails (no success response); however the backup
area is left holding a truncated archive containing exactly the blobs read
before the first failure. -/
theorem create_backup_read_failure (ts : String) (readOk : String → Bool)
    (s : AppState) (h : ∃ p ∈ s.sessions, readOk p.1 = false) :
    (create_backup ts readOk s).1 = Except.error ApiError.readFailure ∧
    kvGet (backupFileName ts) (create_backup ts readOk s).2.backups
      = some (ZipData.ok (goodArchive (s.sessions.takeWhile (fun p => readOk p.1)))) := by
  have hw := zipWriteAll_failure h
  unfold create_backup
  simp only [hw]
  exact ⟨rfl, kvGet_kvSet_self _ _ _⟩

theorem create_backup_read_failure_witness :
    (∃ p ∈ ([("a.json", [1]), ("b.json", [2])] : List (String × Blob)),
      (fun f => f != "b.json") p.1 = false) ∧
    (create_backup "T" (fun f => f != "b.json")
        ⟨[], [], [("a.json", [1]), ("b.json", [2])], []⟩).1
      = Except.error ApiError.readFailure ∧
    kvGet (backupFileName "T")
        (create_backup "T" (fun f => f != "b.json")
          ⟨[], [], [("a.json", [1]), ("b.json", [2])], []⟩).2.backups
      = some (ZipData.ok (goodArchive
          (([("a.json", [1]), ("b.json", [2])] : List (String × Blob)).takeWhile
            (fun p => (fun f => f != "b.json") p.1)))) :=
  ⟨by decide,
   (create_backup_read_failure "T" (fun f => f != "b.json")
      ⟨[], [], [("a.json", [1]), ("b.json", [2])], []⟩ (by decide)).1,
   (create_backup_read_failure "T" (fun f => f != "b.json")
      ⟨[], [], [("a.json", [1]), ("b.json", [2])], []⟩ (by decide)).2⟩

theorem listRestored_jsonFiles (names : List String) (blob : String → Blob)
    (hni : ∀ n ∈ names, ¬ (".json".data <:+: n.data)) :
    listRestored (names.map (fun n => (jsonFile n, blob n))) = names := by
  unfold listRestored
  rw [List.map_map]
  have h2 : List.filter endsWithJson
        (names.map (Prod.fst ∘ fun n => (jsonFile n, blob n)))
      = names.map (Prod.fst ∘ fun n => (jsonFile n, blob n)) := by
    apply List.filter_eq_self.mpr
    intro a ha
    rcases List.mem_map.mp ha with ⟨n, hn, rfl⟩
    exact endsWithJson_jsonFile n
  rw [h2, List.map_map]
  have h3 : ∀ n ∈ names,
      (stripJson ∘ Prod.fst ∘ fun n => (jsonFile n, blob n)) n = id n :=
    fun n hn => stripJson_jsonFile n (hni n hn)
  rw [List.map_congr_left h3, List.map_id]

/-- C1 (amended): for every Session Store consisting of per-account
session files `name.json`, `create_backup` succeeds, records the archive
containing exactly the store's files, and restoring that same archive into
an empty Session Store reproduces the store exactly — same file names,
byte-identical blobs; the restore response lists exactly the original
account names, provided no account name contains `.json` as a substring
(the listing strips every occurrence of `.json` from each file name, not
just the final extension). -/
theorem backup_restore_roundtrip (ts upName : String) (names : List String)
    (blob : String → Blob) (s0 sE : AppState)
    (hs : s0.sessions = names.map (fun n => (jsonFile n, blob n)))
    (hnd : names.Nodup)
    (hni : ∀ n ∈ names, ¬ (".json".data <:+: n.data))
    (hE : sE.sessions = []) :
    (create_backup ts (fun _ => true) s0).1 = Except.ok (backupFileName ts) ∧
    kvGet (backupFileName ts) (create_backup ts (fun _ => true) s0).2.backups
      = some (ZipData.ok (goodArchive s0.sessions)) ∧
    (restore_backup upName (ZipData.ok (goodArchive s0.sessions)) sE).2.sessions
      = s0.sessions ∧
    (restore_backup upName (ZipData.ok (goodArchive s0.sessions)) sE).1
      = Except.ok names := by
  have hndk : ((names.map (fun n => (jsonFile n, blob n))).map Prod.fst).Nodup := by
    rw [List.map_map]
    exact List.Nodup.map (fun a b hab => jsonFile_injective hab) hnd
  refine ⟨?_, ?_, ?_, ?_⟩
  · rw [create_backup_all_reads_ok]
  · rw [create_backup_all_reads_ok]
    exact kvGet_kvSet_self _ _ _
  · simp only [restore_backup_good]
    rw [hE, hs, extractFold_of_disjoint hndk (by simp), List.nil_append]
  · simp only [restore_backup_good]
    rw [hE, hs, extractFold_of_disjoint hndk (by simp), List.nil_append,
      listRestored_jsonFiles names blob hni]

theorem backup_restore_roundtrip_witness :
    (["alice"] : List String).Nodup ∧
    (∀ n ∈ (["alice"] : List String), ¬ (".json".data <:+: n.data)) ∧
    ((create_backup "T" (fun _ => true) ⟨[], [], [("alice.json", [7])], []⟩).1
        = Except.ok (backupFileName "T") ∧
     kvGet (backupFileName "T")
        (create_backup "T" (fun _ => true)
          ⟨[], [], [("alice.json", [7])], []⟩).2.backups
        = some (ZipData.ok (goodArchive [("alice.json", [7])])) ∧
     (restore_backup "up.zip" (ZipData.ok (goodArchive [("alice.json", [7])]))
        ⟨[], [], [], []⟩).2.sessions = [("alice.json", [7])] ∧
     (restore_backup "up.zip" (ZipData.ok (goodArchive [("alice.json", [7])]))
        ⟨[], [], [], []⟩).1 = Except.ok ["alice"]) :=
  ⟨by decide, by decide,
   backup_restore_roundtrip "T" "up.zip" ["alice"] (fun _ => [7])
     ⟨[], [], [("alice.json", [7])], []⟩ ⟨[], [], [], []⟩
     (by decide) (by decide) (by decide) (by decide)⟩

/-- C1 is false as stated: the Session Store can hold an account named
`a.jsonb` (an explicit `req.name`), stored as the file `a.jsonb.json`.
Backup followed by restore into an empty store reproduces the file — but
the restore response lists the account as `ab`, not `a.jsonb`, because the
listing removes every occurrence of `.json` from the file name. -/
theorem backup_restore_roundtrip_cex :
    (create_backup "T" (fun _ => true)
        ⟨[], [], [("a.jsonb.json", [7])], []⟩).1 = Except.ok (backupFileName "T") ∧
    kvGet (backupFileName "T")
        (create_backup "T" (fun _ => true)
          ⟨[], [], [("a.jsonb.json", [7])], []⟩).2.backups
      = some (ZipData.ok (goodArchive [("a.jsonb.json", [7])])) ∧
    (restore_backup "up.zip" (ZipData.ok (goodArchive [("a.jsonb.json", [7])]))
        ⟨[], [], [], []⟩).2.sessions = [("a.jsonb.json", [7])] ∧
    (restore_backup "up.zip" (ZipData.ok (goodArchive [("a.jsonb.json", [7])]))
        ⟨[], [], [], []⟩).1 = Except.ok ["ab"] ∧
    ("ab" : String) ≠ "a.jsonb" ∧
    jsonFile "a.jsonb" = "a.jsonb.json" := by
  decide
